import Mathlib

set_option maxRecDepth 10000

/-!
Shallow embedding of the maze solver and trackers of the `mouse_components`
repository (crates `mousecore2` and the legacy crate), together with proofs
settling the specification claims.

Conventions of the embedding:
* machine integers (`u8`, `usize`) become `Nat` / `Int`; the `i8` range checks
  performed by `checked_add` are modelled explicitly where the source does them;
* the backing arrays (`[u8; WALL_ARRAY_LEN]`, `[Option<Coordinate>; QUE_MAX]`,
  `[bool; QUE_MAX]`) are indexed through `as_index`.  The crate-level constant
  `WIDTH` fixing their physical length lives in `lib.rs`, which is not part of
  the sources; the arrays are therefore modelled as total maps `Nat → _`
  (out-of-bounds accesses, on which the source would panic, never occur on the
  inputs the claims exercise);
* `while` loops become fuel-indexed recursions;
* panicking paths (`unwrap`, `unreachable!`, the fail-safe `panic!`) are
  modelled by explicit fallback values or error results, noted at each site.
-/

namespace Mouse

/-- State of a wall (`WallState` in `solver.rs`): `Unchecked`,
`Checked { exists: bool }`. -/
inductive WallState where
  | unchecked : WallState
  | checked : Bool → WallState
deriving DecidableEq, Repr

/-- A wall coordinate (`Coordinate<W>` in `solver.rs`): cell `(x, y)` plus a
flag selecting the top edge (`is_top = true`) or the right edge.  The `u8`
fields become `Nat`; the range check of the public constructor is `coordNew`. -/
structure Coordinate where
  x : Nat
  y : Nat
  isTop : Bool
deriving DecidableEq, Repr

/-- `Coordinate::new`: rejects `x ≥ W` or `y ≥ W`. -/
def coordNew (W : Nat) (x y : Nat) (isTop : Bool) : Option Coordinate :=
  if x ≥ W ∨ y ≥ W then none else some ⟨x, y, isTop⟩

/-- `Coordinate::as_index`:
`((y as usize) << (2 * W + 1)) | ((x as usize) << (W + 1)) | is_top as usize`. -/
def asIndex (W : Nat) (c : Coordinate) : Nat :=
  ((c.y <<< (2 * W + 1)) ||| (c.x <<< (W + 1))) ||| c.isTop.toNat

/-- The two-bit encoding used by `Walls::update`. -/
def wallBits : WallState → Nat
  | .unchecked => 0
  | .checked false => 1
  | .checked true => 3

/-- The packed wall store (`Walls<W>([u8; WALL_ARRAY_LEN])`).  The byte array
is modelled as a total map from byte index to byte value; every byte is `< 256`. -/
def Walls : Type := { f : Nat → Nat // ∀ i, f i < 256 }

/-- Byte written by `Walls::update`:
`b &= !(3 << shift); b |= bit << shift` on a `u8`. -/
def updateByte (b sh bit : Nat) : Nat :=
  (b &&& (255 ^^^ (3 <<< sh))) ||| (bit <<< sh)

theorem updateByte_lt :
    ∀ b < 256, ∀ k < 4, ∀ v < 4, updateByte b (k * 2) v < 256 := by decide

/-- `Walls::update(coord, state)`. -/
def wallsUpdate (W : Nat) (w : Walls) (c : Coordinate) (s : WallState) : Walls :=
  let index := asIndex W c
  let shift := (index % 4) * 2
  ⟨fun j => if j = index / 4 then updateByte (w.1 j) shift (wallBits s) else w.1 j, by
    intro j
    dsimp only
    split
    · have hb : wallBits s < 4 := by cases s with
        | unchecked => decide
        | checked b => cases b <;> decide
      exact updateByte_lt (w.1 j) (w.2 j) (index % 4) (Nat.mod_lt _ (by decide)) _ hb
    · exact w.2 j⟩

/-- `Maze::wall_state` for `Walls` (`impl Maze<W> for Walls<W>`): reads two bits
at the canonical index.  The source's `_ => unreachable!()` arm (bit pattern
`2`, never produced by `update`) is modelled as `Unchecked`. -/
def wallState (W : Nat) (w : Walls) (c : Coordinate) : WallState :=
  let index := asIndex W c
  match (w.1 (index / 4) >>> ((index % 4) * 2)) &&& 3 with
  | 0 => .unchecked
  | 1 => .checked false
  | 3 => .checked true
  | _ => .unchecked

/-- `Walls::new`: all-zero bytes, then the right perimeter walls `(W-1, i)` and
the top perimeter walls `(i, W-1)` are set `Checked { exists: true }`. -/
def wallsNew (W : Nat) : Walls :=
  (List.range W).foldl
    (fun w i =>
      wallsUpdate W (wallsUpdate W w ⟨W - 1, i, false⟩ (.checked true))
        ⟨i, W - 1, true⟩ (.checked true))
    ⟨fun _ => 0, fun _ => by show (0 : Nat) < 256; decide⟩

theorem byte_getset :
    ∀ b < 256, ∀ k < 4, ∀ v < 4,
      ((updateByte b (k * 2) v >>> (k * 2)) &&& 3) = v := by decide

theorem byte_frame :
    ∀ b < 256, ∀ k < 4, ∀ j < 4, k ≠ j → ∀ v < 4,
      ((updateByte b (k * 2) v >>> (j * 2)) &&& 3) = ((b >>> (j * 2)) &&& 3) := by decide

theorem wallBits_lt (s : WallState) : wallBits s < 4 := by
  cases s with
  | unchecked => decide
  | checked b => cases b <;> decide

/-- Decoding inverts the two-bit encoding. -/
theorem decode_wallBits (s : WallState) :
    (match wallBits s with
      | 0 => WallState.unchecked
      | 1 => WallState.checked false
      | 3 => WallState.checked true
      | _ => WallState.unchecked) = s := by
  cases s with
  | unchecked => rfl
  | checked b => cases b <;> rfl

/-- Get-after-set and frame condition for the packed store, at index level:
an update to `c` stores exactly `s` at `c`'s slot and leaves every slot with a
different canonical index untouched. -/
theorem wallState_update (W : Nat) (w : Walls) (c c' : Coordinate) (s : WallState) :
    wallState W (wallsUpdate W w c s) c' =
      if asIndex W c' = asIndex W c then s else wallState W w c' := by
  unfold wallState wallsUpdate
  dsimp only
  by_cases h : asIndex W c' = asIndex W c
  · simp only [h, if_pos rfl, if_true, eq_self_iff_true]
    rw [byte_getset (w.1 (asIndex W c / 4)) (w.2 _) (asIndex W c % 4)
        (Nat.mod_lt _ (by decide)) (wallBits s) (wallBits_lt s)]
    exact decode_wallBits s
  · rw [if_neg h]
    by_cases hb : asIndex W c' / 4 = asIndex W c / 4
    · rw [if_pos hb, hb]
      have hm : asIndex W c % 4 ≠ asIndex W c' % 4 := by omega
      rw [byte_frame (w.1 (asIndex W c / 4)) (w.2 _) (asIndex W c % 4)
        (Nat.mod_lt _ (by decide)) (asIndex W c' % 4) (Nat.mod_lt _ (by decide)) hm
        (wallBits s) (wallBits_lt s)]
    · rw [if_neg hb]

theorem toNat_lt_two (b : Bool) : b.toNat < 2 := by cases b <;> decide

/-- Positional sum form of `as_index`: the three OR-ed fields occupy disjoint
bit ranges as soon as `x < 2^W`. -/
theorem asIndex_eq (W : Nat) (c : Coordinate) (hx : c.x < 2 ^ W) :
    asIndex W c = c.y * 2 ^ (2 * W + 1) + c.x * 2 ^ (W + 1) + c.isTop.toNat := by
  have h1 : c.x * 2 ^ (W + 1) < 2 ^ (2 * W + 1) := by
    calc c.x * 2 ^ (W + 1) < 2 ^ W * 2 ^ (W + 1) :=
          Nat.mul_lt_mul_of_lt_of_le hx (le_refl _) (Nat.two_pow_pos _)
    _ = 2 ^ (2 * W + 1) := by rw [← pow_add]; ring_nf
  have h2 : (c.y * 2 ^ (2 * W + 1)) ||| (c.x * 2 ^ (W + 1)) =
      c.y * 2 ^ (2 * W + 1) + c.x * 2 ^ (W + 1) := by
    rw [mul_comm c.y, ← Nat.mul_add_lt_is_or h1 c.y, mul_comm]
  have h3 : (c.y * 2 ^ (2 * W + 1) + c.x * 2 ^ (W + 1)) ||| c.isTop.toNat =
      c.y * 2 ^ (2 * W + 1) + c.x * 2 ^ (W + 1) + c.isTop.toNat := by
    have hs : c.y * 2 ^ (2 * W + 1) + c.x * 2 ^ (W + 1) =
        2 ^ 1 * (c.y * 2 ^ (2 * W) + c.x * 2 ^ W) := by
      rw [pow_succ, pow_succ]; ring
    have ht : c.isTop.toNat < 2 ^ 1 := toNat_lt_two c.isTop
    rw [hs, ← Nat.mul_add_lt_is_or ht]
  unfold asIndex
  rw [Nat.shiftLeft_eq, Nat.shiftLeft_eq, h2, h3]

/-- `as_index` is injective on coordinates with `x < 2^W` (in particular all
in-range coordinates, since `W ≤ 2^W`). -/
theorem asIndex_inj (W : Nat) (c c' : Coordinate) (hx : c.x < 2 ^ W)
    (hx' : c'.x < 2 ^ W) (h : asIndex W c = asIndex W c') : c = c' := by
  rw [asIndex_eq W c hx, asIndex_eq W c' hx'] at h
  have hQ : 2 ^ (2 * W + 1) = 2 ^ W * 2 ^ (W + 1) := by rw [← pow_add]; ring_nf
  have hP2 : 2 ^ (W + 1) = 2 * 2 ^ W := by rw [pow_succ]; ring
  have ht : c.isTop.toNat = c'.isTop.toNat := by
    have e1 : (2 * 2 ^ W) * (c.y * 2 ^ W + c.x) + c.isTop.toNat =
        (2 * 2 ^ W) * (c'.y * 2 ^ W + c'.x) + c'.isTop.toNat := by
      rw [hQ, hP2] at h; ring_nf; ring_nf at h; omega
    have m1 := congrArg (· % (2 * 2 ^ W)) e1
    have hlt : (2 : Nat) ≤ 2 * 2 ^ W := by
      have := Nat.two_pow_pos W; omega
    simp only [Nat.mul_add_mod] at m1
    rw [Nat.mod_eq_of_lt (lt_of_lt_of_le (toNat_lt_two _) hlt),
      Nat.mod_eq_of_lt (lt_of_lt_of_le (toNat_lt_two _) hlt)] at m1
    exact m1
  have h2 : 2 ^ W * c.y + c.x = 2 ^ W * c'.y + c'.x := by
    have e1 : (2 * 2 ^ W) * (2 ^ W * c.y + c.x) = (2 * 2 ^ W) * (2 ^ W * c'.y + c'.x) := by
      rw [hQ, hP2] at h; ring_nf; ring_nf at h; omega
    exact Nat.eq_of_mul_eq_mul_left (by have := Nat.two_pow_pos W; omega) e1
  have hxeq : c.x = c'.x := by
    have m2 := congrArg (· % 2 ^ W) h2
    simp only [Nat.mul_add_mod] at m2
    rw [Nat.mod_eq_of_lt hx, Nat.mod_eq_of_lt hx'] at m2
    exact m2
  have hyeq : c.y = c'.y := by
    have : 2 ^ W * c.y = 2 ^ W * c'.y := by omega
    exact Nat.eq_of_mul_eq_mul_left (Nat.two_pow_pos W) this
  have htop : c.isTop = c'.isTop := by
    cases hc : c.isTop <;> cases hc' : c'.isTop <;> simp [hc, hc'] at ht ⊢
  cases c; cases c'
  simp_all

/-- C8 counterexample: for W = 4 the coordinate `(1, 0, right)` has canonical
index `1 <<< 5 = 32`, not `y·2W² + x·2W + is_top = 8` as the claim states. -/
theorem c8_counterexample :
    asIndex 4 ⟨1, 0, false⟩ ≠ 0 * (2 * 4 ^ 2) + 1 * (2 * 4) + Bool.toNat false := by
  decide

/-- C8 (amended): for every in-range wall coordinate of grid width `W`, the
canonical index computed by `as_index` equals
`y·2^(2W+1) + x·2^(W+1) + is_top` (the source shifts by `2W+1` and `W+1`;
the claimed `y·2W² + x·2W + is_top` is not what the code computes). -/
theorem c8_as_index_formula (W : Nat) (c : Coordinate) (hx : c.x < W) :
    asIndex W c = c.y * 2 ^ (2 * W + 1) + c.x * 2 ^ (W + 1) + c.isTop.toNat :=
  asIndex_eq W c (lt_trans hx (Nat.lt_two_pow W))

theorem c8_as_index_formula_witness :
    asIndex 4 ⟨1, 2, true⟩ =
      2 * 2 ^ (2 * 4 + 1) + 1 * 2 ^ (4 + 1) + Bool.toNat true :=
  c8_as_index_formula 4 ⟨1, 2, true⟩ (by decide)

/-- C10: `update(c, s)` followed by `wall_state(c)` returns exactly `s`, and
every coordinate whose canonical index differs from `c`'s is unaffected (frame
condition on the packed bit array). -/
theorem c10_update_wallState (W : Nat) (w : Walls) (c c' : Coordinate) (s : WallState) :
    wallState W (wallsUpdate W w c s) c = s ∧
      (asIndex W c' ≠ asIndex W c →
        wallState W (wallsUpdate W w c s) c' = wallState W w c') := by
  refine ⟨?_, fun h => ?_⟩
  · rw [wallState_update, if_pos rfl]
  · rw [wallState_update, if_neg h]

theorem c10_update_wallState_witness :
    wallState 4 (wallsUpdate 4 (wallsNew 4) ⟨0, 0, true⟩ (.checked true)) ⟨0, 0, true⟩ =
        .checked true ∧
      wallState 4 (wallsUpdate 4 (wallsNew 4) ⟨0, 0, true⟩ (.checked true)) ⟨1, 0, true⟩ =
        wallState 4 (wallsNew 4) ⟨1, 0, true⟩ :=
  ⟨(c10_update_wallState 4 (wallsNew 4) ⟨0, 0, true⟩ ⟨1, 0, true⟩ (.checked true)).1,
    (c10_update_wallState 4 (wallsNew 4) ⟨0, 0, true⟩ ⟨1, 0, true⟩ (.checked true)).2
      (by decide)⟩

/-- C6 counterexample: `Walls::update` is an unconditional write, so writing
`Unchecked` after a wall has become `Checked` makes `wall_state` report it as
`Unchecked` again (the source's own `test_unchecked_wall` does exactly this). -/
theorem c6_counterexample :
    wallState 4 (wallsUpdate 4 (wallsNew 4) ⟨0, 0, true⟩ (.checked false)) ⟨0, 0, true⟩ =
        .checked false ∧
      wallState 4
          (wallsUpdate 4 (wallsUpdate 4 (wallsNew 4) ⟨0, 0, true⟩ (.checked false))
            ⟨0, 0, true⟩ .unchecked) ⟨0, 0, true⟩ = .unchecked := by
  decide

/-- `update` applied over a command sequence. -/
def applyOps (W : Nat) (ops : List (Coordinate × WallState)) (w : Walls) : Walls :=
  ops.foldl (fun w p => wallsUpdate W w p.1 p.2) w

/-- C6 (amended): once a wall reports `Checked`, it keeps reporting `Checked`
under every sequence of updates none of which writes `Unchecked` to that wall's
index — `update` itself is an unconditional write and the callers must enforce
this restriction, as the spec's §4.1 states. -/
theorem c6_monotone (W : Nat) (w : Walls) (c : Coordinate)
    (ops : List (Coordinate × WallState)) (h1 : wallState W w c ≠ .unchecked)
    (h2 : ∀ p ∈ ops, asIndex W p.1 = asIndex W c → p.2 ≠ .unchecked) :
    wallState W (applyOps W ops w) c ≠ .unchecked := by
  induction ops generalizing w with
  | nil => exact h1
  | cons p rest ih =>
    refine ih (wallsUpdate W w p.1 p.2) ?_ (fun q hq => h2 q (List.mem_cons_of_mem _ hq))
    rw [wallState_update]
    split
    case isTrue h => exact h2 p (List.mem_cons_self _ _) h.symm
    case isFalse => exact h1

theorem c6_monotone_witness :
    wallState 4
        (applyOps 4 [(⟨0, 0, true⟩, .checked true)] (wallsNew 4)) ⟨3, 0, false⟩ ≠
      .unchecked :=
  c6_monotone 4 (wallsNew 4) ⟨3, 0, false⟩ [(⟨0, 0, true⟩, .checked true)]
    (by decide) (by decide)

/-! ### ASCII format (`impl Display for Walls`) and parser (`impl FromStr`) -/

/-- The `exists` closure of the `Display` impl. -/
def wallExists (W : Nat) (w : Walls) (x y : Nat) (isTop : Bool) : Bool :=
  wallState W w ⟨x, y, isTop⟩ == .checked true

/-- One row of top walls: for each `x`, `"+---"` or `"+   "`, then `"+"`. -/
def topLineChars (W : Nat) (w : Walls) (y : Nat) : List Char :=
  (List.range W).flatMap
      (fun x => if wallExists W w x y true then ['+', '-', '-', '-']
        else ['+', ' ', ' ', ' ']) ++ ['+']

/-- One row of right walls: `"|"`, then for each `x`, `"   |"` or `"    "`. -/
def rightLineChars (W : Nat) (w : Walls) (y : Nat) : List Char :=
  '|' :: (List.range W).flatMap
      (fun x => if wallExists W w x y false then [' ', ' ', ' ', '|']
        else [' ', ' ', ' ', ' '])

/-- The closing bottom line `"+---+--- ... +"`. -/
def bottomLineChars (W : Nat) : List Char :=
  (List.range W).flatMap (fun _ => ['+', '-', '-', '-']) ++ ['+']

/-- The lines emitted by the `Display` impl, in `writeln!` order:
for `y` from `W-1` down to `0` a top-wall line and a right-wall line, then the
bottom line. -/
def formatLines (W : Nat) (w : Walls) : List (List Char) :=
  (List.range W).reverse.flatMap (fun y => [topLineChars W w y, rightLineChars W w y]) ++
    [bottomLineChars W]

/-- The full formatted output, each line terminated by a newline. -/
def formatChars (W : Nat) (w : Walls) : List Char :=
  (formatLines W w).flatMap (fun l => l ++ ['\n'])

/-- Body of the per-character loop of `from_str` (for a non-skipped position). -/
def parseLineStep (W y : Nat) (w : Walls) (x : Nat) (c : Char) : Walls :=
  if y % 2 = 0 then
    if x % 4 = 1 then
      if c = '-' then wallsUpdate W w ⟨x / 4, W - y / 2 - 1, true⟩ (.checked true)
      else wallsUpdate W w ⟨x / 4, W - y / 2 - 1, true⟩ (.checked false)
    else w
  else
    if x % 4 = 0 then
      if c = '|' then wallsUpdate W w ⟨x / 4 - 1, W - y / 2 - 1, false⟩ (.checked true)
      else wallsUpdate W w ⟨x / 4 - 1, W - y / 2 - 1, false⟩ (.checked false)
    else w

/-- `line.chars().enumerate().skip(1).for_each(...)` with explicit position. -/
def parseLineAux (W y : Nat) : Nat → List Char → Walls → Walls
  | _, [], w => w
  | pos, c :: rest, w =>
    parseLineAux W y (pos + 1) rest (if pos = 0 then w else parseLineStep W y w pos c)

/-- `s.lines().enumerate().take(2W).for_each(...)` with explicit line index. -/
def parseLinesAux (W : Nat) : Nat → List (List Char) → Walls → Walls
  | _, [], w => w
  | y, line :: rest, w => parseLinesAux W (y + 1) rest (parseLineAux W y 0 line w)

/-- `Walls::from_str` on a pre-split list of lines. -/
def parseLines (W : Nat) (lines : List (List Char)) : Walls :=
  parseLinesAux W 0 (lines.take (2 * W)) (wallsNew W)

/-- Split on `'\n'`, keeping empty segments; `splitNL cs` always ends with the
(possibly empty) segment after the last newline. -/
def splitNL : List Char → List (List Char)
  | [] => [[]]
  | c :: rest =>
    if c = '\n' then [] :: splitNL rest
    else
      match splitNL rest with
      | [] => [[c]]
      | l :: ls => (c :: l) :: ls

/-- Rust's `str::lines` (no `'\r'` handling needed: the formatter never emits
one): split on `'\n'` and drop a final empty segment. -/
def rustLines (cs : List Char) : List (List Char) :=
  let ls := splitNL cs
  if ls.getLast? = some [] then ls.dropLast else ls

/-- `Walls::from_str` (the `Err` type is `Infallible`; parsing always succeeds). -/
def fromChars (W : Nat) (cs : List Char) : Walls :=
  parseLines W (rustLines cs)

/-! Round-trip proof: parsing a formatted store recovers the `exists` bit of
every in-range wall, and formatting depends only on those bits. -/

theorem step_skip_top (W y pos : Nat) (c : Char) (w : Walls) (hy : y % 2 = 0)
    (h : pos % 4 ≠ 1) :
    (if pos = 0 then w else parseLineStep W y w pos c) = w := by
  split
  · rfl
  · unfold parseLineStep
    rw [if_pos hy, if_neg h]

theorem step_top (W y pos : Nat) (c : Char) (w : Walls) (hy : y % 2 = 0)
    (h1 : pos % 4 = 1) (h0 : pos ≠ 0) :
    (if pos = 0 then w else parseLineStep W y w pos c) =
      wallsUpdate W w ⟨pos / 4, W - y / 2 - 1, true⟩ (.checked (c == '-')) := by
  rw [if_neg h0]
  unfold parseLineStep
  rw [if_pos hy, if_pos h1]
  by_cases hc : c = '-'
  · rw [if_pos hc, hc]
    rfl
  · rw [if_neg hc]
    have : (c == '-') = false := by simp [hc]
    rw [this]

theorem step_skip_right (W y pos : Nat) (c : Char) (w : Walls) (hy : y % 2 = 1)
    (h : pos % 4 ≠ 0) :
    (if pos = 0 then w else parseLineStep W y w pos c) = w := by
  have h0 : pos ≠ 0 := by omega
  rw [if_neg h0]
  unfold parseLineStep
  rw [if_neg (by omega : ¬y % 2 = 0), if_neg h]

theorem step_right (W y pos : Nat) (c : Char) (w : Walls) (hy : y % 2 = 1)
    (h1 : pos % 4 = 0) (h0 : pos ≠ 0) :
    (if pos = 0 then w else parseLineStep W y w pos c) =
      wallsUpdate W w ⟨pos / 4 - 1, W - y / 2 - 1, false⟩ (.checked (c == '|')) := by
  rw [if_neg h0]
  unfold parseLineStep
  rw [if_neg (by omega : ¬y % 2 = 0), if_pos h1]
  by_cases hc : c = '|'
  · rw [if_pos hc, hc]
    rfl
  · rw [if_neg hc]
    have : (c == '|') = false := by simp [hc]
    rw [this]

theorem parseTop_block (W y j : Nat) (hy : y % 2 = 0) (b : Bool) (rest : List Char)
    (u : Walls) :
    parseLineAux W y (4 * j)
        ((if b then ['+', '-', '-', '-'] else ['+', ' ', ' ', ' ']) ++ rest) u =
      parseLineAux W y (4 * (j + 1)) rest
        (wallsUpdate W u ⟨j, W - y / 2 - 1, true⟩ (.checked b)) := by
  cases b <;>
  · simp only [List.cons_append, List.nil_append, parseLineAux]
    rw [step_skip_top W y (4 * j) _ u hy (by omega)]
    rw [step_top W y (4 * j + 1) _ u hy (by omega) (by omega)]
    rw [step_skip_top W y (4 * j + 1 + 1) _ _ hy (by omega)]
    rw [step_skip_top W y (4 * j + 1 + 1 + 1) _ _ hy (by omega)]
    rw [show 4 * j + 1 + 1 + 1 + 1 = 4 * (j + 1) from by omega]
    rw [show (4 * j + 1) / 4 = j from by omega]
    rfl

theorem parseRight_block (W y j : Nat) (hy : y % 2 = 1) (b : Bool) (rest : List Char)
    (u : Walls) :
    parseLineAux W y (4 * j + 1)
        ((if b then [' ', ' ', ' ', '|'] else [' ', ' ', ' ', ' ']) ++ rest) u =
      parseLineAux W y (4 * (j + 1) + 1) rest
        (wallsUpdate W u ⟨j, W - y / 2 - 1, false⟩ (.checked b)) := by
  cases b <;>
  · simp only [List.cons_append, List.nil_append, parseLineAux]
    rw [step_skip_right W y (4 * j + 1) _ u hy (by omega)]
    rw [step_skip_right W y (4 * j + 1 + 1) _ _ hy (by omega)]
    rw [step_skip_right W y (4 * j + 1 + 1 + 1) _ _ hy (by omega)]
    rw [step_right W y (4 * j + 1 + 1 + 1 + 1) _ _ hy (by omega) (by omega)]
    rw [show 4 * j + 1 + 1 + 1 + 1 + 1 = 4 * (j + 1) + 1 from by omega]
    rw [show (4 * j + 1 + 1 + 1 + 1) / 4 - 1 = j from by omega]
    rfl

/-- The net effect of one parsed line: a batch of `update`s writing `Checked`
states along one row of walls (orientation `t`), at cells `j, j+1, …`. -/
def lineAction (W r : Nat) (t : Bool) : List Bool → Nat → Walls → Walls
  | [], _, u => u
  | b :: bs, j, u => lineAction W r t bs (j + 1) (wallsUpdate W u ⟨j, r, t⟩ (.checked b))

theorem parseLine_top (W y : Nat) (hy : y % 2 = 0) :
    ∀ (bs : List Bool) (j : Nat) (u : Walls),
    parseLineAux W y (4 * j)
        (bs.flatMap (fun b => if b then ['+', '-', '-', '-'] else ['+', ' ', ' ', ' ']) ++
          ['+']) u =
      lineAction W (W - y / 2 - 1) true bs j u := by
  intro bs
  induction bs with
  | nil =>
    intro j u
    simp only [List.flatMap_nil, List.nil_append, parseLineAux]
    rw [step_skip_top W y (4 * j) _ u hy (by omega)]
    rfl
  | cons b bs ih =>
    intro j u
    rw [List.flatMap_cons, List.append_assoc, parseTop_block W y j hy b _ u]
    exact ih (j + 1) _

theorem parseLine_right_aux (W y : Nat) (hy : y % 2 = 1) :
    ∀ (bs : List Bool) (j : Nat) (u : Walls),
    parseLineAux W y (4 * j + 1)
        (bs.flatMap (fun b => if b then [' ', ' ', ' ', '|'] else [' ', ' ', ' ', ' '])) u =
      lineAction W (W - y / 2 - 1) false bs j u := by
  intro bs
  induction bs with
  | nil => intro j u; rfl
  | cons b bs ih =>
    intro j u
    rw [List.flatMap_cons, parseRight_block W y j hy b _ u]
    exact ih (j + 1) _

theorem parseLine_right (W y : Nat) (hy : y % 2 = 1) (bs : List Bool) (u : Walls) :
    parseLineAux W y 0
        ('|' :: bs.flatMap (fun b => if b then [' ', ' ', ' ', '|'] else [' ', ' ', ' ', ' ']))
        u =
      lineAction W (W - y / 2 - 1) false bs 0 u := by
  have h0 : parseLineAux W y 0
      ('|' :: bs.flatMap (fun b => if b then [' ', ' ', ' ', '|'] else [' ', ' ', ' ', ' '])) u =
      parseLineAux W y 1
        (bs.flatMap (fun b => if b then [' ', ' ', ' ', '|'] else [' ', ' ', ' ', ' ']))
        (if 0 = 0 then u else parseLineStep W y u 0 '|') := rfl
  rw [h0, if_pos rfl]
  exact parseLine_right_aux W y hy bs 0 u

/-- `wall_state` after a batch line action: the walls of row `r`, orientation
`t`, at cells `j ≤ x < j + |bs|` now hold `Checked (bs[x-j])`; everything else
is untouched. -/
theorem wallState_lineAction (W : Nat) (t : Bool) :
    ∀ (bs : List Bool) (r j : Nat) (u : Walls) (c : Coordinate),
    j + bs.length ≤ W → c.x < W →
    wallState W (lineAction W r t bs j u) c =
      if c.isTop = t ∧ c.y = r ∧ j ≤ c.x ∧ c.x < j + bs.length then
        .checked (bs.getD (c.x - j) false)
      else wallState W u c := by
  intro bs
  induction bs with
  | nil =>
    intro r j u c _ _
    rw [if_neg (by
      rintro ⟨_, _, h3, h4⟩
      simp only [List.length_nil] at h4
      omega)]
    rfl
  | cons b bs ih =>
    intro r j u c hlen hcx
    have hjW : j < W := by
      have := hlen
      simp only [List.length_cons] at this
      omega
    show wallState W (lineAction W r t bs (j + 1) (wallsUpdate W u ⟨j, r, t⟩ (.checked b))) c = _
    rw [ih r (j + 1) _ c (by simp only [List.length_cons] at hlen; omega) hcx]
    by_cases h1 : c.isTop = t ∧ c.y = r ∧ j + 1 ≤ c.x ∧ c.x < j + 1 + bs.length
    · rw [if_pos h1,
        if_pos (by obtain ⟨a, b', c', d⟩ := h1; exact ⟨a, b', by omega, by
          simp only [List.length_cons]; omega⟩)]
      have hx : c.x - j = (c.x - (j + 1)) + 1 := by omega
      rw [hx, List.getD_cons_succ]
    · by_cases h2 : c.isTop = t ∧ c.y = r ∧ c.x = j
      · rw [if_neg h1]
        have hc : c = ⟨j, r, t⟩ := by
          obtain ⟨a, b', c'⟩ := h2
          cases c
          simp_all
        rw [hc, wallState_update, if_pos rfl,
          if_pos (by refine ⟨rfl, rfl, le_refl j, ?_⟩; simp only [List.length_cons]; omega)]
        simp
      · rw [if_neg h1]
        have hne : asIndex W c ≠ asIndex W ⟨j, r, t⟩ := by
          intro he
          have := asIndex_inj W c ⟨j, r, t⟩ (lt_trans hcx (Nat.lt_two_pow W))
            (lt_trans hjW (Nat.lt_two_pow W)) he
          apply h2
          rw [this]
          exact ⟨rfl, rfl, rfl⟩
        rw [wallState_update, if_neg hne,
          if_neg (by
            rintro ⟨a, b', c', d⟩
            simp only [List.length_cons] at d
            by_cases hxj : c.x = j
            · exact h2 ⟨a, b', hxj⟩
            · exact h1 ⟨a, b', by omega, by omega⟩)]

theorem getD_map_range (W x : Nat) (f : Nat → Bool) (hx : x < W) :
    ((List.range W).map f).getD x false = f x := by
  rw [List.getD_eq_getElem?_getD, List.getElem?_map, List.getElem?_range hx]
  rfl

theorem topLine_blocks (W : Nat) (w : Walls) (y : Nat) :
    topLineChars W w y =
      ((List.range W).map (fun x => wallExists W w x y true)).flatMap
          (fun b => if b then ['+', '-', '-', '-'] else ['+', ' ', ' ', ' ']) ++ ['+'] := by
  rw [List.flatMap_map]
  rfl

theorem rightLine_blocks (W : Nat) (w : Walls) (y : Nat) :
    rightLineChars W w y =
      '|' :: ((List.range W).map (fun x => wallExists W w x y false)).flatMap
          (fun b => if b then [' ', ' ', ' ', '|'] else [' ', ' ', ' ', ' ']) := by
  rw [List.flatMap_map]
  rfl

/-- Parsing the formatted rows `n-1 … 0` (line indices `2k, 2k+1, …`) recovers
the `exists` bit of every wall in those rows and leaves other rows untouched. -/
theorem parseRows (W : Nat) (w : Walls) :
    ∀ (n k : Nat) (u : Walls) (c : Coordinate), n + k = W → c.x < W →
    wallState W
        (parseLinesAux W (2 * k)
          ((List.range n).reverse.flatMap
            (fun y => [topLineChars W w y, rightLineChars W w y])) u) c =
      if c.y < n then .checked (wallExists W w c.x c.y c.isTop) else wallState W u c := by
  intro n
  induction n with
  | zero =>
    intro k u c _ _
    rw [if_neg (by omega)]
    rfl
  | succ n ih =>
    intro k u c hnk hcx
    rw [List.range_succ, List.reverse_append, List.reverse_singleton, List.singleton_append,
      List.flatMap_cons]
    show wallState W
        (parseLinesAux W (2 * k + 1 + 1) _
          (parseLineAux W (2 * k + 1) 0 (rightLineChars W w n)
            (parseLineAux W (2 * k) 0 (topLineChars W w n) u))) c = _
    rw [show 2 * k + 1 + 1 = 2 * (k + 1) from by omega]
    rw [show ∀ l : List (List Char), [].append l = l from fun _ => rfl]
    rw [ih (k + 1) _ c (by omega) hcx]
    have hrow : W - (2 * k) / 2 - 1 = n := by omega
    have hrow' : W - (2 * k + 1) / 2 - 1 = n := by omega
    have htop : parseLineAux W (2 * k) 0 (topLineChars W w n) u =
        lineAction W n true ((List.range W).map (fun x => wallExists W w x n true)) 0 u := by
      rw [topLine_blocks]
      have := parseLine_top W (2 * k) (by omega)
        ((List.range W).map (fun x => wallExists W w x n true)) 0 u
      rw [show 4 * 0 = 0 from rfl] at this
      rw [this, hrow]
    have hright : ∀ v, parseLineAux W (2 * k + 1) 0 (rightLineChars W w n) v =
        lineAction W n false ((List.range W).map (fun x => wallExists W w x n false)) 0 v := by
      intro v
      rw [rightLine_blocks]
      rw [parseLine_right W (2 * k + 1) (by omega) _ v, hrow']
    rw [htop, hright]
    have hlen : (0 : Nat) + ((List.range W).map (fun x => wallExists W w x n false)).length ≤ W := by
      simp
    have hlen' : (0 : Nat) + ((List.range W).map (fun x => wallExists W w x n true)).length ≤ W := by
      simp
    rw [wallState_lineAction W false _ n 0 _ c hlen hcx,
      wallState_lineAction W true _ n 0 _ c hlen' hcx]
    by_cases hy : c.y < n
    · rw [if_pos hy, if_pos (show c.y < n + 1 by omega)]
    · by_cases hy2 : c.y = n
      · rw [if_neg hy, if_pos (show c.y < n + 1 by omega)]
        cases ht : c.isTop with
        | false =>
          rw [if_pos (show false = false ∧ c.y = n ∧ 0 ≤ c.x ∧
              c.x < 0 + (List.map (fun x => wallExists W w x n false) (List.range W)).length
            from ⟨rfl, hy2, Nat.zero_le _, by simpa using hcx⟩)]
          rw [Nat.sub_zero, getD_map_range W c.x _ hcx, hy2]
        | true =>
          rw [if_neg (by
            intro hcon
            exact Bool.noConfusion hcon.1)]
          rw [if_pos (show true = true ∧ c.y = n ∧ 0 ≤ c.x ∧
              c.x < 0 + (List.map (fun x => wallExists W w x n true) (List.range W)).length
            from ⟨rfl, hy2, Nat.zero_le _, by simpa using hcx⟩)]
          rw [Nat.sub_zero, getD_map_range W c.x _ hcx, hy2]
      · rw [if_neg hy, if_neg (show ¬c.y < n + 1 by omega)]
        rw [if_neg (by rintro ⟨_, h2, _⟩; omega), if_neg (by rintro ⟨_, h2, _⟩; omega)]

theorem interleave_length (W : Nat) (w : Walls) (l : List Nat) :
    (l.flatMap (fun y => [topLineChars W w y, rightLineChars W w y])).length =
      2 * l.length := by
  induction l with
  | nil => rfl
  | cons y l ih =>
    rw [List.flatMap_cons, List.length_append, ih, List.length_cons, List.length_cons]
    simp only [List.length_cons, List.length_nil]
    omega

/-- `wall_state` after parsing the formatted output: each in-range wall holds
`Checked e` where `e` is the printed `exists` bit. -/
theorem wallState_parse_format (W : Nat) (w : Walls) (c : Coordinate)
    (hcx : c.x < W) (hcy : c.y < W) :
    wallState W (parseLines W (formatLines W w)) c =
      .checked (wallExists W w c.x c.y c.isTop) := by
  unfold parseLines formatLines
  rw [show (2 * W) =
      ((List.range W).reverse.flatMap
        (fun y => [topLineChars W w y, rightLineChars W w y])).length from by
    rw [interleave_length, List.length_reverse, List.length_range]]
  rw [List.take_left]
  have h := parseRows W w W 0 (wallsNew W) c (by omega) hcx
  rw [mul_zero] at h
  rw [h, if_pos hcy]

theorem splitNL_ne_nil : ∀ cs : List Char, splitNL cs ≠ [] := by
  intro cs
  induction cs with
  | nil => simp [splitNL]
  | cons c rest ih =>
    unfold splitNL
    split
    · simp
    · split
      · simp
      · simp

theorem splitNL_cons (c : Char) (rest : List Char) :
    splitNL (c :: rest) =
      if c = '\n' then [] :: splitNL rest
      else
        match splitNL rest with
        | [] => [[c]]
        | l :: ls => (c :: l) :: ls := rfl

theorem splitNL_append : ∀ (l cs : List Char), '\n' ∉ l →
    splitNL (l ++ cs) = (l ++ (splitNL cs).headD []) :: (splitNL cs).tail := by
  intro l
  induction l with
  | nil =>
    intro cs _
    rw [List.nil_append, List.nil_append]
    cases h : splitNL cs with
    | nil => exact absurd h (splitNL_ne_nil cs)
    | cons a as => rfl
  | cons c l ih =>
    intro cs h
    have hc : ¬c = '\n' := by
      intro hc
      exact h (hc ▸ List.mem_cons_self c l)
    have hl : '\n' ∉ l := fun hm => h (List.mem_cons_of_mem c hm)
    rw [List.cons_append, splitNL_cons, if_neg hc, ih cs hl, List.cons_append]

theorem splitNL_unlines : ∀ ls : List (List Char), (∀ l ∈ ls, '\n' ∉ l) →
    splitNL (ls.flatMap (fun l => l ++ ['\n'])) = ls ++ [[]] := by
  intro ls
  induction ls with
  | nil => intro _; rfl
  | cons l ls ih =>
    intro h
    rw [List.flatMap_cons, List.append_assoc,
      splitNL_append l _ (h l (List.mem_cons_self l ls))]
    have step : splitNL (['\n'] ++ ls.flatMap (fun l => l ++ ['\n'])) =
        [] :: splitNL (ls.flatMap (fun l => l ++ ['\n'])) := by
      rw [List.singleton_append, splitNL_cons, if_pos rfl]
    rw [step, ih (fun q hq => h q (List.mem_cons_of_mem l hq))]
    simp

/-- Rust's `lines` inverts joining newline-free lines with `'\n'`. -/
theorem rustLines_unlines (ls : List (List Char)) (h : ∀ l ∈ ls, '\n' ∉ l) :
    rustLines (ls.flatMap (fun l => l ++ ['\n'])) = ls := by
  unfold rustLines
  rw [splitNL_unlines ls h]
  rw [show (ls ++ [[]] : List (List Char)) = ls ++ [[]] from rfl]
  rw [if_pos (by rw [List.getLast?_concat])]
  exact List.dropLast_concat

theorem nl_not_mem_top (W : Nat) (w : Walls) (y : Nat) : '\n' ∉ topLineChars W w y := by
  unfold topLineChars
  intro h
  rcases List.mem_append.1 h with h | h
  · rcases List.mem_flatMap.1 h with ⟨x, _, hx⟩
    revert hx
    split <;> decide
  · revert h
    decide

theorem nl_not_mem_right (W : Nat) (w : Walls) (y : Nat) : '\n' ∉ rightLineChars W w y := by
  unfold rightLineChars
  intro h
  rcases List.mem_cons.1 h with h | h
  · exact absurd h (by decide)
  · rcases List.mem_flatMap.1 h with ⟨x, _, hx⟩
    revert hx
    split <;> decide

theorem nl_not_mem_bottom (W : Nat) : '\n' ∉ bottomLineChars W := by
  unfold bottomLineChars
  intro h
  rcases List.mem_append.1 h with h | h
  · rcases List.mem_flatMap.1 h with ⟨x, _, hx⟩
    revert hx
    decide
  · revert h
    decide

theorem nl_not_mem_formatLines (W : Nat) (w : Walls) :
    ∀ l ∈ formatLines W w, '\n' ∉ l := by
  intro l hl
  unfold formatLines at hl
  rcases List.mem_append.1 hl with h | h
  · rcases List.mem_flatMap.1 h with ⟨y, _, hy⟩
    rcases List.mem_cons.1 hy with h' | h'
    · rw [h']
      exact nl_not_mem_top W w y
    · rcases List.mem_cons.1 h' with h'' | h''
      · rw [h'']
        exact nl_not_mem_right W w y
      · exact absurd h'' (List.not_mem_nil l)
  · rw [List.mem_singleton.1 h]
    exact nl_not_mem_bottom W

/-- The formatted lines depend only on the `exists` bits of in-range walls. -/
theorem formatLines_congr (W : Nat) (w1 w2 : Walls)
    (h : ∀ x y t, x < W → y < W → wallExists W w1 x y t = wallExists W w2 x y t) :
    formatLines W w1 = formatLines W w2 := by
  unfold formatLines
  have hline : ∀ y < W, topLineChars W w1 y = topLineChars W w2 y ∧
      rightLineChars W w1 y = rightLineChars W w2 y := by
    intro y hy
    constructor
    · unfold topLineChars
      rw [List.flatMap_congr (fun x hx => by
        rw [h x y true (List.mem_range.1 hx) hy])]
    · unfold rightLineChars
      rw [List.flatMap_congr (fun x hx => by
        rw [h x y false (List.mem_range.1 hx) hy])]
  rw [List.flatMap_congr (fun y hy => by
    have hyW : y < W := List.mem_range.1 (List.mem_reverse.1 hy)
    rw [(hline y hyW).1, (hline y hyW).2])]

/-- C3: for every width and every wall store, formatting, parsing the result
via `FromStr` (Rust line splitting included) and formatting again reproduces
the original output character for character: `format (parse (format w)) =
format w`. -/
theorem c3_format_parse_format (W : Nat) (w : Walls) :
    formatChars W (fromChars W (formatChars W w)) = formatChars W w := by
  have key : fromChars W (formatChars W w) = parseLines W (formatLines W w) := by
    unfold fromChars formatChars
    rw [rustLines_unlines (formatLines W w) (nl_not_mem_formatLines W w)]
  rw [key]
  unfold formatChars
  rw [formatLines_congr W (parseLines W (formatLines W w)) w (fun x y t hx hy => by
    unfold wallExists
    rw [wallState_parse_format W w ⟨x, y, t⟩ hx hy]
    show (WallState.checked (wallExists W w x y t) == WallState.checked true) = _
    unfold wallExists
    cases wallState W w ⟨x, y, t⟩ with
    | unchecked => rfl
    | checked b => cases b <;> rfl)]

/-! ### The exploration planner (`Searcher`, `solver.rs`) -/

/-- `u8 → i8` cast (`x as i8`). -/
def i8OfU8 (n : Nat) : Int := if n < 128 then (n : Int) else (n : Int) - 256

/-- `Coordinate::new_relative`: `i8` checked addition of the offsets, then a
negativity check, then a cast back to `u8`. -/
def newRelative (c : Coordinate) (dx dy : Int) (isTop : Bool) : Option Coordinate :=
  let x := i8OfU8 c.x + dx
  let y := i8OfU8 c.y + dy
  if x < -128 ∨ 127 < x ∨ y < -128 ∨ 127 < y then none
  else if x < 0 ∨ y < 0 then none
  else some ⟨x.toNat, y.toNat, isTop⟩

/-- One `add_with_check` call of `extended_neighbors`: the neighbor is kept iff
it exists and passes the filter. -/
def addCheck (filter : Coordinate → Bool) (c : Coordinate) (dx dy : Int)
    (isTop : Bool) : List Coordinate :=
  match newRelative c dx dy isTop with
  | some cc => if filter cc then [cc] else []
  | none => []

/-- A straight slide chain (`for d in 1.. { if !add_with_check(..) break }`):
collect while the relative coordinate exists and passes the filter.  The `i8`
loop variable bounds the chain at 127 steps. -/
def chainCollect (filter : Coordinate → Bool) (mk : Int → Option Coordinate) :
    Nat → Int → List Coordinate
  | 0, _ => []
  | fuel + 1, d =>
    match mk d with
    | none => []
    | some cc =>
      if filter cc then cc :: chainCollect filter mk fuel (d + 1) else []

/-- `Coordinate::extended_neighbors`, in the source's push order: the four
perpendicular neighbors, then the increasing chain, then the decreasing one. -/
def extendedNeighbors (filter : Coordinate → Bool) (c : Coordinate) : List Coordinate :=
  if c.isTop then
    addCheck filter c 0 0 false ++ addCheck filter c (-1) 0 false ++
      addCheck filter c 0 1 false ++ addCheck filter c (-1) 1 false ++
      chainCollect filter (fun d => newRelative c 0 d true) 127 1 ++
      chainCollect filter (fun d => newRelative c 0 (-d) true) 127 1
  else
    addCheck filter c 0 0 true ++ addCheck filter c 0 (-1) true ++
      addCheck filter c 1 0 true ++ addCheck filter c 1 (-1) true ++
      chainCollect filter (fun d => newRelative c d 0 false) 127 1 ++
      chainCollect filter (fun d => newRelative c (-d) 0 false) 127 1

/-- `Coordinate::neighbors`: the single-step neighbors whose wall is not
`Checked { exists: true }`, in push order. -/
def neighbors (maze : Coordinate → WallState) (c : Coordinate) : List Coordinate :=
  let add := fun (dx dy : Int) (t : Bool) =>
    match newRelative c dx dy t with
    | some cc => if maze cc == .checked true then [] else [cc]
    | none => []
  if c.isTop then
    add 0 0 false ++ add 0 (-1) true ++ add (-1) 0 false ++ add (-1) 1 false ++
      add 0 1 false ++ add 0 1 true
  else
    add 0 0 true ++ add (-1) 0 false ++ add 0 (-1) true ++ add 1 (-1) true ++
      add 1 0 false ++ add 1 0 true

/-- `Coordinate::intermediate_coords`: all coordinates between `c` and `other`
(`c` included, `other` excluded).  The source's `assert!`/`unreachable!` panics
(non-neighbor arguments) are modelled as the empty list. -/
def intermediateCoords (c other : Coordinate) : List Coordinate :=
  if c.isTop then
    if other.isTop then
      if c.x = other.x ∧ c.y ≠ other.y then
        (if c.y > other.y then List.range' (other.y + 1) (c.y - other.y)
         else List.range' c.y (other.y - c.y)).map (fun y => ⟨c.x, y, true⟩)
      else []
    else
      if (((other.x : Int) - c.x, (other.y : Int) - c.y) ∈
          [((0 : Int), (0 : Int)), (-1, 0), (-1, 1), (0, 1)]) then [c] else []
  else if other.isTop then
    if (((other.x : Int) - c.x, (other.y : Int) - c.y) ∈
        [((0 : Int), (0 : Int)), (0, -1), (1, 0), (1, -1)]) then [c] else []
  else
    if c.x ≠ other.x ∧ c.y = other.y then
      (if c.x > other.x then List.range' (other.x + 1) (c.x - other.x)
       else List.range' c.x (other.x - c.x)).map (fun x => ⟨x, c.y, false⟩)
    else []

/-- The BFS loop of `Searcher::bfs_tree`.  The predecessor array
(`[Option<Coordinate>; QUE_MAX]`, indexed by `as_index`) is a total map, the
`Deque` is a list, and the `while` loop takes explicit fuel. -/
def bfsAux (W : Nat) (maze : Coordinate → WallState) (goal : Coordinate) :
    Nat → List Coordinate → (Nat → Option Coordinate) → (Nat → Option Coordinate)
  | 0, _, prev => prev
  | _ + 1, [], prev => prev
  | fuel + 1, node :: rest, prev =>
    if node = goal then prev
    else
      let ns := extendedNeighbors
        (fun c => !(maze c == .checked true) && (prev (asIndex W c)).isNone) node
      bfsAux W maze goal fuel (rest ++ ns)
        (ns.foldl (fun p n => fun i => if i = asIndex W n then some node else p i) prev)

/-- `Searcher::bfs_tree`. -/
def bfsTree (W fuel : Nat) (maze : Coordinate → WallState) (start goal : Coordinate) :
    Nat → Option Coordinate :=
  bfsAux W maze goal fuel [start] (fun i => if i = asIndex W start then some start else none)

/-- The `while let` loop of `Searcher::unchecked_walls`, walking the
predecessor map from the goal and collecting `Unchecked` intermediate walls. -/
def uncheckedWallsAux (W : Nat) (maze : Coordinate → WallState) (start : Coordinate)
    (prev : Nat → Option Coordinate) :
    Nat → Coordinate → List Coordinate → List Coordinate
  | 0, _, acc => acc
  | fuel + 1, cur, acc =>
    match prev (asIndex W cur) with
    | none => acc
    | some next =>
      let acc' := acc ++ (intermediateCoords cur next).filter (fun n => maze n == .unchecked)
      if next = start then acc'
      else uncheckedWallsAux W maze start prev fuel next acc'

/-- `Searcher::unchecked_walls`. -/
def uncheckedWalls (W fuel : Nat) (maze : Coordinate → WallState) (start : Coordinate)
    (prev : Nat → Option Coordinate) (goal : Coordinate) : List Coordinate :=
  uncheckedWallsAux W maze start prev fuel goal []

/-- The same walk without the `Unchecked` filter: every wall lying between
consecutive nodes of the reconstructed optimistic path. -/
def pathWallsAux (W : Nat) (start : Coordinate) (prev : Nat → Option Coordinate) :
    Nat → Coordinate → List Coordinate → List Coordinate
  | 0, _, acc => acc
  | fuel + 1, cur, acc =>
    match prev (asIndex W cur) with
    | none => acc
    | some next =>
      let acc' := acc ++ intermediateCoords cur next
      if next = start then acc'
      else pathWallsAux W start prev fuel next acc'

def pathWalls (W fuel : Nat) (start : Coordinate) (prev : Nat → Option Coordinate)
    (goal : Coordinate) : List Coordinate :=
  pathWallsAux W start prev fuel goal []

/-- The BFS loop of `Searcher::candidates` (second BFS outward from the
unchecked walls); the visited array is a total map.  The inner `for` loop
threads `(is_visited, pushed queue tail, candidates)` left to right. -/
def candidatesAux (W : Nat) (maze : Coordinate → WallState) (current : Coordinate) :
    Nat → List Coordinate → (Nat → Bool) → List Coordinate → List Coordinate
  | 0, _, _, acc => acc
  | _ + 1, [], _, acc => acc
  | fuel + 1, node :: rest, vis, acc =>
    let st := (neighbors maze node).foldl
      (fun (st : (Nat → Bool) × List Coordinate × List Coordinate) next =>
        let acc' := if next = current then st.2.2 ++ [node] else st.2.2
        if st.1 (asIndex W next) then (st.1, st.2.1, acc')
        else ((fun i => if i = asIndex W next then true else st.1 i),
          st.2.1 ++ [next], acc'))
      (vis, [], acc)
    candidatesAux W maze current fuel (rest ++ st.2.1) st.1 st.2.2

/-- `Searcher::candidates`. -/
def candidates (W fuel : Nat) (maze : Coordinate → WallState) (current : Coordinate)
    (walls : List Coordinate) : List Coordinate :=
  candidatesAux W maze current fuel walls
    (walls.foldl (fun v wl => fun i => if i = asIndex W wl then true else v i)
      (fun _ => false))
    []

/-- `SearchError`. -/
inductive SearchError where
  | unreachable : SearchError
deriving DecidableEq, Repr

/-- `Commander`. -/
structure Commander where
  candidates : List Coordinate
deriving DecidableEq, Repr

/-- `Searcher::search` (the `Searcher`'s `start`/`goal` fields are passed as
arguments). -/
def search (W fuel : Nat) (maze : Coordinate → WallState)
    (start goal current : Coordinate) : Except SearchError (Option Commander) :=
  let prev := bfsTree W fuel maze start goal
  if (prev (asIndex W goal)).isNone then .error .unreachable
  else
    let walls := uncheckedWalls W fuel maze start prev goal
    if walls.isEmpty then .ok none
    else
      let cands := candidates W fuel maze current walls
      if cands.isEmpty then .error .unreachable
      else .ok (some ⟨cands⟩)

/-- `restore_path` (from the source's test module): walk the predecessor map
from the goal, then reverse.  Fuel exhaustion (the source would loop) gives
`none`. -/
def restorePathAux (W : Nat) (prev : Nat → Option Coordinate) (start : Coordinate) :
    Nat → Coordinate → List Coordinate → Option (List Coordinate)
  | 0, _, _ => none
  | fuel + 1, cur, path =>
    match prev (asIndex W cur) with
    | none => some path
    | some next =>
      if cur = start then some (path ++ [cur])
      else restorePathAux W prev start fuel next (path ++ [cur])

def restorePath (W fuel : Nat) (prev : Nat → Option Coordinate)
    (start goal : Coordinate) : Option (List Coordinate) :=
  (restorePathAux W prev start fuel goal []).map List.reverse

/-- The optimistic graph of the claims: an extended-neighbor move exists iff
every slid-over wall (the target included) is not `Checked { exists: true }`;
`Unchecked` walls are treated as absent. -/
def optimisticNeighbors (maze : Coordinate → WallState) (c : Coordinate) :
    List Coordinate :=
  extendedNeighbors (fun n => !(maze n == .checked true)) c

theorem uncheckedWallsAux_filter (W : Nat) (maze : Coordinate → WallState)
    (start : Coordinate) (prev : Nat → Option Coordinate) :
    ∀ (fuel : Nat) (cur : Coordinate) (acc : List Coordinate),
    uncheckedWallsAux W maze start prev fuel cur
        (acc.filter (fun n => maze n == .unchecked)) =
      (pathWallsAux W start prev fuel cur acc).filter (fun n => maze n == .unchecked) := by
  intro fuel
  induction fuel with
  | zero => intro cur acc; rfl
  | succ fuel ih =>
    intro cur acc
    unfold uncheckedWallsAux pathWallsAux
    cases hp : prev (asIndex W cur) with
    | none => rfl
    | some next =>
      dsimp only
      by_cases hs : next = start
      · rw [if_pos hs, if_pos hs, List.filter_append]
      · rw [if_neg hs, if_neg hs, ← List.filter_append, ih next]

theorem uncheckedWalls_eq_filter (W fuel : Nat) (maze : Coordinate → WallState)
    (start : Coordinate) (prev : Nat → Option Coordinate) (goal : Coordinate) :
    uncheckedWalls W fuel maze start prev goal =
      (pathWalls W fuel start prev goal).filter (fun n => maze n == .unchecked) := by
  unfold uncheckedWalls pathWalls
  rw [show ([] : List Coordinate) =
    ([] : List Coordinate).filter (fun n => maze n == .unchecked) from rfl]
  exact uncheckedWallsAux_filter W maze start prev fuel goal []

/-- `search` with its `let`s flattened. -/
theorem search_def (W fuel : Nat) (maze : Coordinate → WallState)
    (start goal current : Coordinate) :
    search W fuel maze start goal current =
      if (bfsTree W fuel maze start goal (asIndex W goal)).isNone then
        .error .unreachable
      else if (uncheckedWalls W fuel maze start (bfsTree W fuel maze start goal)
          goal).isEmpty then .ok none
      else if (candidates W fuel maze current
          (uncheckedWalls W fuel maze start (bfsTree W fuel maze start goal)
            goal)).isEmpty then .error .unreachable
      else .ok (some ⟨candidates W fuel maze current
        (uncheckedWalls W fuel maze start (bfsTree W fuel maze start goal) goal)⟩) := rfl

/-- C1: when the goal is reachable in the optimistic graph (the BFS tree has an
entry for the goal), `search` returns `Ok(None)` exactly when the set of
`Unchecked` walls along the reconstructed optimistic path is empty; and when it
does return `Ok(None)`, every wall along that path is in a `Checked` state. -/
theorem c1_search_finished (W fuel : Nat) (maze : Coordinate → WallState)
    (start goal current : Coordinate)
    (hreach : bfsTree W fuel maze start goal (asIndex W goal) ≠ none) :
    (search W fuel maze start goal current = .ok none ↔
      uncheckedWalls W fuel maze start (bfsTree W fuel maze start goal) goal = []) ∧
    (search W fuel maze start goal current = .ok none →
      ∀ c ∈ pathWalls W fuel start (bfsTree W fuel maze start goal) goal,
        maze c ≠ .unchecked) := by
  have h1 : (bfsTree W fuel maze start goal (asIndex W goal)).isNone = false := by
    cases h : bfsTree W fuel maze start goal (asIndex W goal) with
    | none => exact absurd h hreach
    | some _ => rfl
  have hiff : search W fuel maze start goal current = .ok none ↔
      uncheckedWalls W fuel maze start (bfsTree W fuel maze start goal) goal = [] := by
    rw [search_def, h1]
    simp only [Bool.false_eq_true, if_false]
    by_cases hw :
        (uncheckedWalls W fuel maze start (bfsTree W fuel maze start goal) goal).isEmpty
    · rw [if_pos hw]
      simp only [List.isEmpty_iff.1 hw]
    · rw [if_neg hw]
      constructor
      · intro h
        split at h
        · exact Except.noConfusion h
        · injection h with h'
          exact Option.noConfusion h'
      · intro h
        exact absurd (List.isEmpty_iff.2 h) hw
  refine ⟨hiff, fun hs c hc => ?_⟩
  have hempty := hiff.1 hs
  rw [uncheckedWalls_eq_filter] at hempty
  have := List.filter_eq_nil_iff.1 hempty c hc
  intro hcon
  exact this (by rw [hcon]; rfl)

/-- A small concrete maze for exercising `search`: a two-move corridor from
`(0,0,top)` to `(1,0,top)`, all other walls present. -/
def corridorMaze : Coordinate → WallState := fun c =>
  if c ∈ [(⟨0, 0, true⟩ : Coordinate), ⟨0, 0, false⟩, ⟨1, 0, true⟩] then .checked false
  else .checked true

theorem c1_search_finished_witness :
    (search 4 100 corridorMaze ⟨0, 0, true⟩ ⟨1, 0, true⟩ ⟨0, 0, true⟩ = .ok none ↔
      uncheckedWalls 4 100 corridorMaze ⟨0, 0, true⟩
        (bfsTree 4 100 corridorMaze ⟨0, 0, true⟩ ⟨1, 0, true⟩) ⟨1, 0, true⟩ = []) ∧
    (search 4 100 corridorMaze ⟨0, 0, true⟩ ⟨1, 0, true⟩ ⟨0, 0, true⟩ = .ok none →
      ∀ c ∈ pathWalls 4 100 ⟨0, 0, true⟩
        (bfsTree 4 100 corridorMaze ⟨0, 0, true⟩ ⟨1, 0, true⟩) ⟨1, 0, true⟩,
        corridorMaze c ≠ .unchecked) :=
  c1_search_finished 4 100 corridorMaze ⟨0, 0, true⟩ ⟨1, 0, true⟩ ⟨0, 0, true⟩ (by decide)

/-- C7: `search` returns `Err(Unreachable)` exactly when the goal has no BFS
predecessor entry (unreachable in the optimistic graph), or the unchecked-wall
set is non-empty and the second BFS outward from it produces no candidate. -/
theorem c7_search_unreachable (W fuel : Nat) (maze : Coordinate → WallState)
    (start goal current : Coordinate) :
    search W fuel maze start goal current = .error .unreachable ↔
      (bfsTree W fuel maze start goal (asIndex W goal) = none ∨
        (uncheckedWalls W fuel maze start (bfsTree W fuel maze start goal) goal ≠ [] ∧
          candidates W fuel maze current
            (uncheckedWalls W fuel maze start (bfsTree W fuel maze start goal) goal) = [])) := by
  rw [search_def]
  by_cases h1 : (bfsTree W fuel maze start goal (asIndex W goal)).isNone
  · rw [if_pos h1]
    simp only [Option.isNone_iff_eq_none.1 h1, true_or, iff_true]
  · rw [if_neg h1]
    have h1' : ¬bfsTree W fuel maze start goal (asIndex W goal) = none := by
      intro h
      exact h1 (Option.isNone_iff_eq_none.2 h)
    by_cases hw :
        (uncheckedWalls W fuel maze start (bfsTree W fuel maze start goal) goal).isEmpty
    · rw [if_pos hw]
      constructor
      · intro h
        exact Except.noConfusion h
      · rintro (h | ⟨h, _⟩)
        · exact absurd h h1'
        · exact absurd (List.isEmpty_iff.1 hw) h
    · rw [if_neg hw]
      have hw' : uncheckedWalls W fuel maze start (bfsTree W fuel maze start goal) goal ≠ [] :=
        fun h => hw (List.isEmpty_iff.2 h)
      by_cases hc : (candidates W fuel maze current
          (uncheckedWalls W fuel maze start (bfsTree W fuel maze start goal) goal)).isEmpty
      · rw [if_pos hc]
        constructor
        · intro _
          exact Or.inr ⟨hw', List.isEmpty_iff.1 hc⟩
        · intro _
          rfl
      · rw [if_neg hc]
        constructor
        · intro h
          exact Except.noConfusion h
        · rintro (h | ⟨_, h⟩)
          · exact absurd h h1'
          · exact absurd (List.isEmpty_iff.2 h) hc

/-- A maze (wall-state assignment) on which the BFS tree path is longer than an
alternative optimistic path: the free (absent) walls are
`s=(2,0,top), pa=(2,1,right), pu=(2,1,top), a=(3,1,top), u=(1,2,right),
(2,2,right), w=(3,2,right), v=(4,2,right)`; every other wall is present. -/
def slideMaze : Coordinate → WallState := fun c =>
  if c ∈ [(⟨2, 0, true⟩ : Coordinate), ⟨2, 1, false⟩, ⟨2, 1, true⟩, ⟨3, 1, true⟩,
      ⟨1, 2, false⟩, ⟨2, 2, false⟩, ⟨3, 2, false⟩, ⟨4, 2, false⟩] then .checked false
  else .checked true

/-- A list of coordinates is a chain of optimistic extended-neighbor moves. -/
def isOptChain (maze : Coordinate → WallState) : List Coordinate → Bool
  | [] => true
  | [_] => true
  | a :: b :: rest => (optimisticNeighbors maze a).contains b && isOptChain maze (b :: rest)

/-- C2 counterexample: on `slideMaze` (width 8, start `(2,0,top)`, goal
`(4,2,right)`) the path reconstructed from `bfs_tree`'s predecessor map has 4
extended-neighbor moves, while the alternative optimistic path
`(2,0,top) → (2,1,top) → (1,2,right) → (4,2,right)` (the last move slides past
the absent walls `(2,2,right)` and `(3,2,right)`) has only 3: the BFS neighbor
filter also rejects already-visited slide-over coordinates, so the tree path is
not shortest in the optimistic graph. -/
theorem c2_counterexample :
    ¬ (∀ p alt : List Coordinate,
        restorePath 8 20 (bfsTree 8 20 slideMaze ⟨2, 0, true⟩ ⟨4, 2, false⟩)
            ⟨2, 0, true⟩ ⟨4, 2, false⟩ = some p →
        alt.head? = some ⟨2, 0, true⟩ →
        alt.getLast? = some ⟨4, 2, false⟩ →
        isOptChain slideMaze alt = true →
        p.length ≤ alt.length) := by
  intro h
  have h2 := h
    [⟨2, 0, true⟩, ⟨2, 1, false⟩, ⟨3, 1, true⟩, ⟨3, 2, false⟩, ⟨4, 2, false⟩]
    [⟨2, 0, true⟩, ⟨2, 1, true⟩, ⟨1, 2, false⟩, ⟨4, 2, false⟩]
    (by decide) (by decide) (by decide) (by decide)
  exact absurd h2 (by decide)

theorem chainCollect_mono (f g : Coordinate → Bool) (mk : Int → Option Coordinate)
    (hfg : ∀ z, f z = true → g z = true) :
    ∀ (fuel : Nat) (d : Int) (c : Coordinate),
    c ∈ chainCollect f mk fuel d → c ∈ chainCollect g mk fuel d := by
  intro fuel
  induction fuel with
  | zero => intro d c h; exact absurd h (List.not_mem_nil c)
  | succ fuel ih =>
    intro d c h
    unfold chainCollect at h ⊢
    cases hm : mk d with
    | none =>
      rw [hm] at h
      dsimp only at h
      exact absurd h (List.not_mem_nil c)
    | some cc =>
      rw [hm] at h
      dsimp only at h
      dsimp only
      by_cases hf : f cc = true
      · rw [if_pos hf] at h
        rw [if_pos (hfg cc hf)]
        rcases List.mem_cons.1 h with h | h
        · exact h ▸ List.mem_cons_self _ _
        · exact List.mem_cons_of_mem _ (ih (d + 1) c h)
      · rw [if_neg hf] at h
        exact absurd h (List.not_mem_nil c)

theorem addCheck_mono (f g : Coordinate → Bool) (c : Coordinate) (dx dy : Int)
    (t : Bool) (hfg : ∀ z, f z = true → g z = true) (c' : Coordinate)
    (h : c' ∈ addCheck f c dx dy t) : c' ∈ addCheck g c dx dy t := by
  unfold addCheck at h ⊢
  cases hm : newRelative c dx dy t with
  | none =>
    rw [hm] at h
    dsimp only at h
    exact absurd h (List.not_mem_nil c')
  | some cc =>
    rw [hm] at h
    dsimp only at h
    dsimp only
    by_cases hf : f cc = true
    · rw [if_pos hf] at h
      rw [if_pos (hfg cc hf)]
      exact h
    · rw [if_neg hf] at h
      exact absurd h (List.not_mem_nil c')

theorem extendedNeighbors_mono (f g : Coordinate → Bool)
    (hfg : ∀ z, f z = true → g z = true) (c c' : Coordinate)
    (h : c' ∈ extendedNeighbors f c) : c' ∈ extendedNeighbors g c := by
  unfold extendedNeighbors at h ⊢
  by_cases ht : c.isTop
  · rw [if_pos ht] at h ⊢
    simp only [List.mem_append] at h ⊢
    rcases h with ((((h | h) | h) | h) | h) | h
    · exact Or.inl (Or.inl (Or.inl (Or.inl (Or.inl (addCheck_mono f g c _ _ _ hfg c' h)))))
    · exact Or.inl (Or.inl (Or.inl (Or.inl (Or.inr (addCheck_mono f g c _ _ _ hfg c' h)))))
    · exact Or.inl (Or.inl (Or.inl (Or.inr (addCheck_mono f g c _ _ _ hfg c' h))))
    · exact Or.inl (Or.inl (Or.inr (addCheck_mono f g c _ _ _ hfg c' h)))
    · exact Or.inl (Or.inr (chainCollect_mono f g _ hfg 127 1 c' h))
    · exact Or.inr (chainCollect_mono f g _ hfg 127 1 c' h)
  · rw [if_neg ht] at h ⊢
    simp only [List.mem_append] at h ⊢
    rcases h with ((((h | h) | h) | h) | h) | h
    · exact Or.inl (Or.inl (Or.inl (Or.inl (Or.inl (addCheck_mono f g c _ _ _ hfg c' h)))))
    · exact Or.inl (Or.inl (Or.inl (Or.inl (Or.inr (addCheck_mono f g c _ _ _ hfg c' h)))))
    · exact Or.inl (Or.inl (Or.inl (Or.inr (addCheck_mono f g c _ _ _ hfg c' h))))
    · exact Or.inl (Or.inl (Or.inr (addCheck_mono f g c _ _ _ hfg c' h)))
    · exact Or.inl (Or.inr (chainCollect_mono f g _ hfg 127 1 c' h))
    · exact Or.inr (chainCollect_mono f g _ hfg 127 1 c' h)

/-- Invariant of the BFS predecessor map: every entry is the start's self-loop
or records a genuine optimistic extended-neighbor move. -/
def PrevInv (W : Nat) (maze : Coordinate → WallState) (start : Coordinate)
    (prev : Nat → Option Coordinate) : Prop :=
  ∀ i p, prev i = some p →
    (i = asIndex W start ∧ p = start) ∨
      ∃ c, asIndex W c = i ∧ c ∈ optimisticNeighbors maze p

theorem foldl_update_lookup (W : Nat) (node : Coordinate) :
    ∀ (ns : List Coordinate) (prev : Nat → Option Coordinate) (i : Nat) (q : Coordinate),
    (ns.foldl (fun p n => fun j => if j = asIndex W n then some node else p j) prev) i =
      some q →
    prev i = some q ∨ (q = node ∧ ∃ n ∈ ns, asIndex W n = i) := by
  intro ns
  induction ns with
  | nil => intro prev i q h; exact Or.inl h
  | cons n ns ih =>
    intro prev i q h
    rcases ih _ i q h with h' | ⟨hq, m, hm, hi⟩
    · dsimp only at h'
      by_cases hi : i = asIndex W n
      · rw [if_pos hi] at h'
        injection h' with h''
        exact Or.inr ⟨h''.symm, n, List.mem_cons_self _ _, hi.symm⟩
      · rw [if_neg hi] at h'
        exact Or.inl h'
    · exact Or.inr ⟨hq, m, List.mem_cons_of_mem _ hm, hi⟩

theorem bfsAux_inv (W : Nat) (maze : Coordinate → WallState) (start goal : Coordinate) :
    ∀ (fuel : Nat) (queue : List Coordinate) (prev : Nat → Option Coordinate),
    PrevInv W maze start prev →
    PrevInv W maze start (bfsAux W maze goal fuel queue prev) := by
  intro fuel
  induction fuel with
  | zero => intro queue prev h; exact h
  | succ fuel ih =>
    intro queue prev h
    cases queue with
    | nil => exact h
    | cons node rest =>
      show PrevInv W maze start (if node = goal then prev else _)
      by_cases hg : node = goal
      · rw [if_pos hg]
        exact h
      · rw [if_neg hg]
        apply ih
        intro i p hp
        rcases foldl_update_lookup W node _ prev i p hp with h' | ⟨hq, n, hn, hi⟩
        · exact h i p h'
        · refine Or.inr ⟨n, hi, ?_⟩
          rw [hq]
          refine extendedNeighbors_mono _ _ (fun z hz => ?_) node n hn
          rw [Bool.and_eq_true] at hz
          exact hz.1

/-- C2 (amended): every entry of the predecessor map returned by `bfs_tree` is
either the start's self-entry or records a genuine extended-neighbor move of
the optimistic graph (wall not `Checked{present}`, `Unchecked` treated as
absent); hence the reconstructed start-to-goal path follows optimistic moves.
Length-minimality, however, does not hold (see the counterexample): the BFS
filter also rejects already-visited slide-over coordinates, which can lengthen
the tree path. -/
theorem c2_bfs_edges (W fuel : Nat) (maze : Coordinate → WallState)
    (start goal : Coordinate) (i : Nat) (p : Coordinate)
    (h : bfsTree W fuel maze start goal i = some p) :
    (i = asIndex W start ∧ p = start) ∨
      ∃ c, asIndex W c = i ∧ c ∈ optimisticNeighbors maze p := by
  refine bfsAux_inv W maze start goal fuel [start] _ ?_ i p h
  intro i q hq
  dsimp only at hq
  by_cases hi : i = asIndex W start
  · rw [if_pos hi] at hq
    injection hq with hq'
    exact Or.inl ⟨hi, hq'.symm⟩
  · rw [if_neg hi] at hq
    exact Option.noConfusion hq

theorem c2_bfs_edges_witness :
    (asIndex 8 ⟨2, 1, false⟩ = asIndex 8 (⟨2, 0, true⟩ : Coordinate) ∧
        (⟨2, 0, true⟩ : Coordinate) = ⟨2, 0, true⟩) ∨
      ∃ c, asIndex 8 c = asIndex 8 (⟨2, 1, false⟩ : Coordinate) ∧
        c ∈ optimisticNeighbors slideMaze ⟨2, 0, true⟩ :=
  c2_bfs_edges 8 20 slideMaze ⟨2, 0, true⟩ ⟨4, 2, false⟩
    (asIndex 8 ⟨2, 1, false⟩) ⟨2, 0, true⟩ (by decide)

/-! ### Trackers (`mousecore2/src/tracker.rs` and the legacy `src/tracker.rs`)

`f32` quantities (the `uom` wrappers store a raw `f32` value) are modelled as
real numbers; all arithmetic is exact. -/

/-- One axis of a reference target or of the robot state:
`(position, velocity, acceleration, jerk)` (`LengthTarget` / `AngleTarget`). -/
structure AxisTarget where
  x : ℝ
  v : ℝ
  a : ℝ
  j : ℝ

/-- `Target`. -/
structure Target where
  x : AxisTarget
  y : AxisTarget
  theta : AxisTarget

/-- Modelled from the spec: `estimator::State` (`mousecore2/src/estimator.rs`
is not under `src/`).  Per spec §3 the robot state carries, for each axis
`{x, y, θ}`, the same `(position, velocity, acceleration, jerk)` quadruple as
the reference target, which is exactly how `tracker.rs` reads it
(`state.x.{x,v,a}`, `state.theta.{x,v,a}`). -/
structure State where
  x : AxisTarget
  y : AxisTarget
  theta : AxisTarget

/-- `ControlTarget`. -/
structure ControlTarget where
  v : ℝ
  a : ℝ
  omega : ℝ
  alpha : ℝ

/-- `normalize_angle` (`mousecore2/src/tracker.rs`): `rem_euclid(TAU)` followed
by wrapping results above `π` down by `TAU`. -/
noncomputable def normalizeAngle (x : ℝ) : ℝ :=
  let raw := x - 2 * Real.pi * ⌊x / (2 * Real.pi)⌋
  if raw > Real.pi then raw - 2 * Real.pi else raw

/-- `sinc`: the Taylor polynomial `x⁸/362880 − x⁶/5040 + x⁴/120 − x²/6 + 1`. -/
noncomputable def sinc (x : ℝ) : ℝ :=
  let xx := x * x
  let xxxx := xx * xx
  xxxx * xxxx / 362880 - xxxx * xx / 5040 + xxxx / 120 - xx / 6 + 1

namespace MC2

/-- `Tracker` of `mousecore2` (gains are raw `f32` values). -/
structure Tracker where
  gain : ℝ
  dgain : ℝ
  xi : ℝ
  period : ℝ
  xiThreshold : ℝ
  zeta : ℝ
  b : ℝ

/-- `ux = target.x.a + dgain·(target.x.v − state.x.v) + gain·(target.x.x − state.x.x)`. -/
noncomputable def ux (tr : Tracker) (s : State) (tg : Target) : ℝ :=
  tg.x.a + tr.dgain * (tg.x.v - s.x.v) + tr.gain * (tg.x.x - s.x.x)

noncomputable def uy (tr : Tracker) (s : State) (tg : Target) : ℝ :=
  tg.y.a + tr.dgain * (tg.y.v - s.y.v) + tr.gain * (tg.y.x - s.y.x)

noncomputable def dux (tr : Tracker) (s : State) (tg : Target) : ℝ :=
  tg.x.j + tr.dgain * (tg.x.a - s.x.a) + tr.gain * (tg.x.v - s.x.v)

noncomputable def duy (tr : Tracker) (s : State) (tg : Target) : ℝ :=
  tg.y.j + tr.dgain * (tg.y.a - s.y.a) + tr.gain * (tg.y.v - s.y.v)

/-- `dxi = ux·cosθ + uy·sinθ`. -/
noncomputable def dxi (tr : Tracker) (s : State) (tg : Target) : ℝ :=
  ux tr s tg * Real.cos s.theta.x + uy tr s tg * Real.sin s.theta.x

/-- The integrator value after `self.xi += self.period * dxi` (which the
source performs before selecting the branch). -/
noncomputable def newXi (tr : Tracker) (s : State) (tg : Target) : ℝ :=
  tr.xi + tr.period * dxi tr s tg

/-- `vr = target.x.v·cosθ_r + target.y.v·sinθ_r`. -/
noncomputable def vr (tg : Target) : ℝ :=
  tg.x.v * Real.cos tg.theta.x + tg.y.v * Real.sin tg.theta.x

/-- `Tracker::track` of `mousecore2`: returns the two `ControlTarget`s and the
tracker with its updated integrator. -/
noncomputable def track (tr : Tracker) (s : State) (tg : Target) :
    (ControlTarget × ControlTarget) × Tracker :=
  let sinTh := Real.sin s.theta.x
  let cosTh := Real.cos s.theta.x
  let vv := s.x.v * cosTh + s.y.v * sinTh
  let va := s.x.a * cosTh + s.y.a * sinTh
  let xi' := newXi tr s tg
  let out :=
    if |vr tg| > tr.xiThreshold ∧ |xi'| > tr.xiThreshold then
      let uw := (uy tr s tg * cosTh - ux tr s tg * sinTh) / xi'
      ControlTarget.mk xi' (dxi tr s tg) uw
        (-((2 * dxi tr s tg * uw + dux tr s tg * sinTh - duy tr s tg * cosTh) / xi'))
    else
      let thetaD := normalizeAngle (tg.theta.x - s.theta.x)
      let xd := tg.x.x - s.x.x
      let yd := tg.y.x - s.y.x
      let wr := tg.theta.v
      let k1 := 2 * tr.zeta * Real.sqrt (wr * wr + tr.b * (vr tg * vr tg))
      ControlTarget.mk
        (vr tg * Real.cos thetaD + k1 * (xd * cosTh + yd * sinTh))
        (tg.x.a * Real.cos tg.theta.x + tg.y.a * Real.sin tg.theta.x)
        (wr + tr.b * vr tg * (-xd * sinTh + yd * cosTh) * sinc thetaD + k1 * thetaD)
        tg.theta.a
  ((out, ControlTarget.mk vv va s.theta.v s.theta.a),
    { tr with xi := xi' })

end MC2

noncomputable def zeroAxis : AxisTarget := ⟨0, 0, 0, 0⟩

/-- Tracker with `xi = 1`, `period = 1`, `ξ_threshold = 1/2`, zero gains. -/
noncomputable def c5Tracker : MC2.Tracker := ⟨0, 0, 1, 1, 1 / 2, 1, 1⟩

noncomputable def c5State : State := ⟨zeroAxis, zeroAxis, zeroAxis⟩

noncomputable def c5Target : Target := ⟨zeroAxis, zeroAxis, zeroAxis⟩

/-- C5 counterexample: with zero gains, `θ = 0`, an all-zero target and
`ξ = 1 > ξ_threshold = 1/2`, the updated integrator satisfies
`|ξ| > ξ_threshold`, yet `track` takes the Kanayama branch (its output velocity
is `0`, not `ξ`): the source condition is
`vr.abs() > xi_threshold && xi.abs() > xi_threshold`, and here `v_r = 0`.
So the high-velocity law is not selected exactly when `|ξ| > ξ_threshold`. -/
theorem c5_counterexample :
    ¬ (|MC2.newXi c5Tracker c5State c5Target| > c5Tracker.xiThreshold →
        (MC2.track c5Tracker c5State c5Target).1.1.v =
          MC2.newXi c5Tracker c5State c5Target) := by
  have hxi : MC2.newXi c5Tracker c5State c5Target = 1 := by
    simp [MC2.newXi, MC2.dxi, MC2.ux, MC2.uy, c5Tracker, c5State, c5Target, zeroAxis]
  have hvr : MC2.vr c5Target = 0 := by
    simp [MC2.vr, c5Target, zeroAxis]
  have hcond : ¬(|MC2.vr c5Target| > c5Tracker.xiThreshold ∧
      |MC2.newXi c5Tracker c5State c5Target| > c5Tracker.xiThreshold) := by
    rw [hvr]
    rintro ⟨h1, _⟩
    rw [abs_zero] at h1
    have : c5Tracker.xiThreshold = 1 / 2 := rfl
    rw [this] at h1
    norm_num at h1
  have htrack : (MC2.track c5Tracker c5State c5Target).1.1.v = 0 := by
    simp only [MC2.track]
    rw [if_neg hcond]
    have hx : c5Target.x.x - c5State.x.x = 0 := by
      simp [c5Target, c5State, zeroAxis]
    have hy : c5Target.y.x - c5State.y.x = 0 := by
      simp [c5Target, c5State, zeroAxis]
    simp [hvr, hx, hy]
  intro h
  have h1 : |MC2.newXi c5Tracker c5State c5Target| > c5Tracker.xiThreshold := by
    rw [hxi]
    show (1 : ℝ) / 2 < |1|
    norm_num
  rw [htrack] at h
  have := h h1
  rw [hxi] at this
  norm_num at this

/-- C5 (amended): the tracker selects the high-velocity control law exactly
when BOTH the reference longitudinal velocity and the updated integrator
exceed the threshold in absolute value
(`vr.abs() > xi_threshold && xi.abs() > xi_threshold`); otherwise it applies
the Kanayama low-velocity pose stabilizer. -/
theorem c5_branch_selection (tr : MC2.Tracker) (s : State) (tg : Target) :
    ((|MC2.vr tg| > tr.xiThreshold ∧ |MC2.newXi tr s tg| > tr.xiThreshold) →
      (MC2.track tr s tg).1.1 =
        ControlTarget.mk (MC2.newXi tr s tg) (MC2.dxi tr s tg)
          ((MC2.uy tr s tg * Real.cos s.theta.x - MC2.ux tr s tg * Real.sin s.theta.x) /
            MC2.newXi tr s tg)
          (-((2 * MC2.dxi tr s tg *
              ((MC2.uy tr s tg * Real.cos s.theta.x -
                MC2.ux tr s tg * Real.sin s.theta.x) / MC2.newXi tr s tg) +
              MC2.dux tr s tg * Real.sin s.theta.x -
              MC2.duy tr s tg * Real.cos s.theta.x) / MC2.newXi tr s tg))) ∧
    (¬(|MC2.vr tg| > tr.xiThreshold ∧ |MC2.newXi tr s tg| > tr.xiThreshold) →
      (MC2.track tr s tg).1.1 =
        ControlTarget.mk
          (MC2.vr tg * Real.cos (normalizeAngle (tg.theta.x - s.theta.x)) +
            2 * tr.zeta * Real.sqrt (tg.theta.v * tg.theta.v + tr.b * (MC2.vr tg * MC2.vr tg)) *
              ((tg.x.x - s.x.x) * Real.cos s.theta.x + (tg.y.x - s.y.x) * Real.sin s.theta.x))
          (tg.x.a * Real.cos tg.theta.x + tg.y.a * Real.sin tg.theta.x)
          (tg.theta.v + tr.b * MC2.vr tg *
              (-(tg.x.x - s.x.x) * Real.sin s.theta.x + (tg.y.x - s.y.x) * Real.cos s.theta.x) *
              sinc (normalizeAngle (tg.theta.x - s.theta.x)) +
            2 * tr.zeta * Real.sqrt (tg.theta.v * tg.theta.v + tr.b * (MC2.vr tg * MC2.vr tg)) *
              normalizeAngle (tg.theta.x - s.theta.x))
          tg.theta.a) := by
  constructor
  · intro h
    simp only [MC2.track]
    rw [if_pos h]
  · intro h
    simp only [MC2.track]
    rw [if_neg h]

/-- Target moving at unit velocity along `x` with `θ_r = 0`. -/
noncomputable def c5wTarget : Target := ⟨⟨0, 1, 0, 0⟩, zeroAxis, zeroAxis⟩

theorem c5_branch_selection_witness :
    (MC2.track c5Tracker c5State c5wTarget).1.1 =
      ControlTarget.mk (MC2.newXi c5Tracker c5State c5wTarget)
        (MC2.dxi c5Tracker c5State c5wTarget)
        ((MC2.uy c5Tracker c5State c5wTarget * Real.cos c5State.theta.x -
          MC2.ux c5Tracker c5State c5wTarget * Real.sin c5State.theta.x) /
          MC2.newXi c5Tracker c5State c5wTarget)
        (-((2 * MC2.dxi c5Tracker c5State c5wTarget *
            ((MC2.uy c5Tracker c5State c5wTarget * Real.cos c5State.theta.x -
              MC2.ux c5Tracker c5State c5wTarget * Real.sin c5State.theta.x) /
              MC2.newXi c5Tracker c5State c5wTarget) +
            MC2.dux c5Tracker c5State c5wTarget * Real.sin c5State.theta.x -
            MC2.duy c5Tracker c5State c5wTarget * Real.cos c5State.theta.x) /
            MC2.newXi c5Tracker c5State c5wTarget)) :=
  (c5_branch_selection c5Tracker c5State c5wTarget).1 (by
    constructor
    · have : MC2.vr c5wTarget = 1 := by
        simp [MC2.vr, c5wTarget, zeroAxis]
      rw [this]
      show c5Tracker.xiThreshold < |1|
      have h2 : c5Tracker.xiThreshold = 1 / 2 := rfl
      rw [h2]
      norm_num
    · have : MC2.newXi c5Tracker c5State c5wTarget = 1 := by
        simp [MC2.newXi, MC2.dxi, MC2.ux, MC2.uy, c5Tracker, c5State, c5wTarget, zeroAxis]
      rw [this]
      show c5Tracker.xiThreshold < |1|
      have h2 : c5Tracker.xiThreshold = 1 / 2 := rfl
      rw [h2]
      norm_num)

namespace Old

/-- The legacy `Tracker` (`src/tracker.rs`); the two inner PI(D) controllers
(`TranslationController` / `RotationController`) are modelled as functions
`(r, dr, y, dy) ↦ voltage`. -/
structure Tracker where
  kx : ℝ
  kdx : ℝ
  ky : ℝ
  kdy : ℝ
  xi : ℝ
  period : ℝ
  xiThreshold : ℝ
  failSafeDistance : ℝ
  zeta : ℝ
  b : ℝ
  transCtl : ℝ → ℝ → ℝ → ℝ → ℝ
  rotCtl : ℝ → ℝ → ℝ → ℝ → ℝ

/-- Outcome of one `track` call: either the fail-safe path (`stop()` applies
the default `0 V` to both motors, then the source `panic!`s — a permanent,
fatal error) or the normal voltage pair `(vol_v − vol_w, vol_v + vol_w)`. -/
inductive TrackOutcome where
  | panicked : ℝ → ℝ → TrackOutcome
  | applied : ℝ → ℝ → TrackOutcome

/-- The distance computed by `Tracker::fail_safe`:
`sqrt(x_diff² + y_diff²)` with `x_diff = state.x.x − target.x.x`. -/
noncomputable def failDistance (s : State) (tg : Target) : ℝ :=
  Real.sqrt ((s.x.x - tg.x.x) * (s.x.x - tg.x.x) + (s.y.x - tg.y.x) * (s.y.x - tg.y.x))

/-- `Tracker::track_move` (which `track` forwards to the motors), including
the leading `fail_safe` check (`if distance >= fail_safe_distance`). -/
noncomputable def trackMove (tr : Tracker) (s : State) (tg : Target) :
    Tracker × TrackOutcome :=
  if failDistance s tg ≥ tr.failSafeDistance then (tr, .panicked 0 0)
  else
    let sinTh := Real.sin s.theta.x
    let cosTh := Real.cos s.theta.x
    let vv := s.x.v * cosTh + s.y.v * sinTh
    let va := s.x.a * cosTh + s.y.a * sinTh
    let ux := tg.x.a + tr.kdx * (tg.x.v - s.x.v) + tr.kx * (tg.x.x - s.x.x)
    let uy := tg.y.a + tr.kdy * (tg.y.v - s.y.v) + tr.ky * (tg.y.x - s.y.x)
    let dux := tg.x.j + tr.kdx * (tg.x.a - s.x.a) + tr.kx * (tg.x.v - s.x.v)
    let duy := tg.y.j + tr.kdy * (tg.y.a - s.y.a) + tr.ky * (tg.y.v - s.y.v)
    let dxi := ux * cosTh + uy * sinTh
    let q :=
      if tr.xi > tr.xiThreshold then
        let uw := (uy * cosTh - ux * sinTh) / tr.xi
        (tr.xi, uw, dxi, -((2 * dxi * uw + dux * sinTh - duy * cosTh) / tr.xi))
      else
        let thetaD := tg.theta.x - s.theta.x
        let xd := tg.x.x - s.x.x
        let yd := tg.y.x - s.y.x
        let vr := tg.x.v * Real.cos tg.theta.x + tg.y.v * Real.sin tg.theta.x
        let wr := tg.theta.v
        let k1 := 2 * tr.zeta * Real.sqrt (wr * wr + tr.b * vr * vr)
        let e := xd * cosTh + yd * sinTh
        (vr * Real.cos thetaD + k1 * e,
          wr + tr.b * vr * e * sinc thetaD + k1 * thetaD, 0, 0)
    let xi' := tr.xi + tr.period * dxi
    let volV := tr.transCtl q.1 q.2.2.1 vv va
    let volW := tr.rotCtl q.2.1 q.2.2.2 s.theta.v s.theta.a
    ({ tr with xi := xi' }, .applied (volV - volW) (volV + volW))

end Old

/-- C4: whenever the Euclidean distance between the state and target positions
exceeds `fail_safe_distance`, `track` drives both motors to zero voltage
(`stop()`) and aborts with the permanent fail-safe error (`panic!`) instead of
producing a normal control output; the integrator is not updated. -/
theorem c4_fail_safe (tr : Old.Tracker) (s : State) (tg : Target)
    (h : Old.failDistance s tg > tr.failSafeDistance) :
    Old.trackMove tr s tg = (tr, .panicked 0 0) := by
  unfold Old.trackMove
  rw [if_pos (le_of_lt h)]

noncomputable def c4Tracker : Old.Tracker :=
  ⟨1, 1, 1, 1, 0, 1, 1, 1, 1, 1, fun _ _ _ _ => 0, fun _ _ _ _ => 0⟩

noncomputable def c4State : State := ⟨⟨3, 0, 0, 0⟩, ⟨4, 0, 0, 0⟩, zeroAxis⟩

noncomputable def c4Target : Target := ⟨zeroAxis, zeroAxis, zeroAxis⟩

theorem c4_fail_safe_witness :
    Old.trackMove c4Tracker c4State c4Target = (c4Tracker, .panicked 0 0) :=
  c4_fail_safe c4Tracker c4State c4Target (by
    have h1 : Old.failDistance c4State c4Target = 5 := by
      unfold Old.failDistance
      have hx : c4State.x.x - c4Target.x.x = 3 := by
        simp [c4State, c4Target, zeroAxis]
      have hy : c4State.y.x - c4Target.y.x = 4 := by
        simp [c4State, c4Target, zeroAxis]
      rw [hx, hy]
      rw [show (3 : ℝ) * 3 + 4 * 4 = 5 ^ 2 by norm_num]
      exact Real.sqrt_sq (by norm_num)
    rw [h1]
    show c4Tracker.failSafeDistance < 5
    have h2 : c4Tracker.failSafeDistance = 1 := rfl
    rw [h2]
    norm_num)

/-- `uom`'s `Angle::new::<degree>(d)`: the stored base value in radians. -/
noncomputable def deg (d : ℝ) : ℝ := d * Real.pi / 180

theorem normalizeAngle_floor (x : ℝ) (n : ℤ) (hn : ⌊x / (2 * Real.pi)⌋ = n) :
    normalizeAngle x =
      if x - 2 * Real.pi * n > Real.pi then x - 2 * Real.pi * n - 2 * Real.pi
      else x - 2 * Real.pi * n := by
  simp only [normalizeAngle, hn]

/-- C9: `normalize_angle` maps every angle into `(−π, π]` and preserves it
modulo `2π`; and the concrete degree inputs `45, 180, −45, −300, −660` map to
`45, 180, −45, 60, 60` degrees (exactly, hence within `1e-3`). -/
theorem c9_normalize_angle :
    (∀ x : ℝ, normalizeAngle x ∈ Set.Ioc (-Real.pi) Real.pi ∧
      ∃ k : ℤ, x - normalizeAngle x = 2 * Real.pi * k) ∧
    |normalizeAngle (deg 45) - deg 45| ≤ 1 / 1000 ∧
    |normalizeAngle (deg 180) - deg 180| ≤ 1 / 1000 ∧
    |normalizeAngle (deg (-45)) - deg (-45)| ≤ 1 / 1000 ∧
    |normalizeAngle (deg (-300)) - deg 60| ≤ 1 / 1000 ∧
    |normalizeAngle (deg (-660)) - deg 60| ≤ 1 / 1000 := by
  have hpi := Real.pi_pos
  have h2pi : (0 : ℝ) < 2 * Real.pi := by linarith
  have hne : (2 : ℝ) * Real.pi ≠ 0 := ne_of_gt h2pi
  have hmain : ∀ x : ℝ, normalizeAngle x ∈ Set.Ioc (-Real.pi) Real.pi ∧
      ∃ k : ℤ, x - normalizeAngle x = 2 * Real.pi * k := by
    intro x
    have hle : (⌊x / (2 * Real.pi)⌋ : ℝ) ≤ x / (2 * Real.pi) := Int.floor_le _
    have hlt : x / (2 * Real.pi) < ⌊x / (2 * Real.pi)⌋ + 1 := Int.lt_floor_add_one _
    have h0 : 0 ≤ x - 2 * Real.pi * ⌊x / (2 * Real.pi)⌋ := by
      have := (le_div_iff₀ h2pi).1 hle
      linarith
    have h1 : x - 2 * Real.pi * ⌊x / (2 * Real.pi)⌋ < 2 * Real.pi := by
      have := (div_lt_iff₀ h2pi).1 hlt
      linarith
    simp only [normalizeAngle]
    split
    case isTrue hgt =>
      refine ⟨⟨by linarith, by linarith⟩, ⟨⌊x / (2 * Real.pi)⌋ + 1, ?_⟩⟩
      push_cast
      ring
    case isFalse hng =>
      rw [not_lt] at hng
      refine ⟨⟨by linarith, hng⟩, ⟨⌊x / (2 * Real.pi)⌋, ?_⟩⟩
      ring
  refine ⟨hmain, ?_, ?_, ?_, ?_, ?_⟩
  · have hq : deg 45 / (2 * Real.pi) = 1 / 8 := by
      unfold deg
      field_simp
      ring
    have hf : ⌊deg 45 / (2 * Real.pi)⌋ = 0 := by
      rw [hq]
      norm_num
    rw [normalizeAngle_floor _ 0 hf]
    rw [if_neg (by unfold deg; push_cast; intro h; nlinarith)]
    have : deg 45 - 2 * Real.pi * ((0 : ℤ) : ℝ) - deg 45 = 0 := by push_cast; ring
    rw [this, abs_zero]
    norm_num
  · have hq : deg 180 / (2 * Real.pi) = 1 / 2 := by
      unfold deg
      field_simp
      ring
    have hf : ⌊deg 180 / (2 * Real.pi)⌋ = 0 := by
      rw [hq]
      norm_num
    rw [normalizeAngle_floor _ 0 hf]
    rw [if_neg (by unfold deg; push_cast; intro h; nlinarith)]
    have : deg 180 - 2 * Real.pi * ((0 : ℤ) : ℝ) - deg 180 = 0 := by push_cast; ring
    rw [this, abs_zero]
    norm_num
  · have hq : deg (-45) / (2 * Real.pi) = -(1 / 8) := by
      unfold deg
      field_simp
      ring
    have hf : ⌊deg (-45) / (2 * Real.pi)⌋ = -1 := by
      rw [hq, Int.floor_eq_iff]
      norm_num
    rw [normalizeAngle_floor _ (-1) hf]
    rw [if_pos (by unfold deg; push_cast; nlinarith [Real.pi_pos])]
    have : deg (-45) - 2 * Real.pi * ((-1 : ℤ) : ℝ) - 2 * Real.pi - deg (-45) = 0 := by
      push_cast
      ring
    rw [this, abs_zero]
    norm_num
  · have hq : deg (-300) / (2 * Real.pi) = -(5 / 6) := by
      unfold deg
      field_simp
      ring
    have hf : ⌊deg (-300) / (2 * Real.pi)⌋ = -1 := by
      rw [hq, Int.floor_eq_iff]
      norm_num
    rw [normalizeAngle_floor _ (-1) hf]
    rw [if_neg (by unfold deg; push_cast; intro h; nlinarith [Real.pi_pos])]
    have : deg (-300) - 2 * Real.pi * ((-1 : ℤ) : ℝ) - deg 60 = 0 := by
      unfold deg
      push_cast
      ring
    rw [this, abs_zero]
    norm_num
  · have hq : deg (-660) / (2 * Real.pi) = -(11 / 6) := by
      unfold deg
      field_simp
      ring
    have hf : ⌊deg (-660) / (2 * Real.pi)⌋ = -2 := by
      rw [hq, Int.floor_eq_iff]
      norm_num
    rw [normalizeAngle_floor _ (-2) hf]
    rw [if_neg (by unfold deg; push_cast; intro h; nlinarith [Real.pi_pos])]
    have : deg (-660) - 2 * Real.pi * ((-2 : ℤ) : ℝ) - deg 60 = 0 := by
      unfold deg
      push_cast
      ring
    rw [this, abs_zero]
    norm_num

end Mouse
